import Mathlib

/-!
Shallow embedding of the reactive core of `simplistic-js`
(`lib/src/state.ts`, `lib/src/simplest.ts`, `lib/src/simplest-v2.js`).

Listeners and computed cells are identified by natural-number ids.
Side effects of a notify pass are reified as a trace of events:
`listenerCall id v` means the subscriber callback `id` was invoked with
value `v`; `recomputeCall cid` means `recompute()` was triggered on the
computed cell `cid`.
-/

/-- Observable effects of a notify pass. -/
inductive REvent (α : Type) where
  | listenerCall : Nat → α → REvent α
  | recomputeCall : Nat → REvent α
  deriving DecidableEq, Repr

/-- `State<T>` from `state.ts`: stored value, the `listeners` Set
(insertion-ordered, duplicate-free list) and the `computedStates` Set. -/
structure State (α : Type) where
  value : α
  listeners : List Nat
  computedStates : List Nat
  deriving Repr

namespace State

/-- `State.notify`: invoke every listener with `this._value`, then trigger
`recompute()` on every registered computed state, in that order. -/
def notify (s : State α) : List (REvent α) :=
  s.listeners.map (fun id => REvent.listenerCall id s.value)
    ++ s.computedStates.map REvent.recomputeCall

/-- The `value` setter: `if (newValue !== this._value) { this._value = newValue; this.notify() }`. -/
def setValue [DecidableEq α] (s : State α) (newValue : α) : State α × List (REvent α) :=
  if newValue ≠ s.value then
    let s' : State α := { s with value := newValue }
    (s', s'.notify)
  else
    (s, [])

/-- `State.subscribe`: `this.listeners.add(listener)` — a `Set` add is a
no-op when the listener is already present. -/
def subscribe (s : State α) (id : Nat) : State α :=
  { s with listeners := if id ∈ s.listeners then s.listeners else s.listeners ++ [id] }

/-- The unsubscribe closure returned by `subscribe`:
`() => this.listeners.delete(listener)` — deletes that one listener if present. -/
def unsubscribe (s : State α) (id : Nat) : State α :=
  { s with listeners := s.listeners.erase id }

end State

/-- `ComputedState<T>` from `state.ts`: cached `_value`, the compute closure
`() => fn(dep._value)` represented as a function of the dependency's current
value, and this cell's own `listeners` Set. -/
structure ComputedState (α β : Type) where
  value : β
  computeFn : α → β
  listeners : List Nat

namespace ComputedState

/-- `ComputedState.recompute`: compute `newValue`; if it differs strictly from
the cache, update the cache and fire this cell's own subscribers with the new
value; if equal, do nothing. -/
def recompute [DecidableEq β] (c : ComputedState α β) (depValue : α) :
    ComputedState α β × List (REvent β) :=
  let newValue := c.computeFn depValue
  if newValue ≠ c.value then
    ({ c with value := newValue },
      c.listeners.map (fun id => REvent.listenerCall id newValue))
  else
    (c, [])

/-- `ComputedState.subscribe`: same `Set` mechanics as `State.subscribe`. -/
def subscribe (c : ComputedState α β) (id : Nat) : ComputedState α β :=
  { c with listeners := if id ∈ c.listeners then c.listeners else c.listeners ++ [id] }

/-- The unsubscribe closure returned by `ComputedState.subscribe`. -/
def unsubscribe (c : ComputedState α β) (id : Nat) : ComputedState α β :=
  { c with listeners := c.listeners.erase id }

end ComputedState

/-- `State.map`: `new ComputedState(() => fn(this._value), [this])` — the
constructor computes and caches `fn` of the dependency's current value; the
new cell starts with no subscribers of its own. -/
def State.map (s : State α) (fn : α → β) : ComputedState α β :=
  { value := fn s.value, computeFn := fn, listeners := [] }

/-- One dependency mutation as seen by a mapped computed cell: the `value`
setter guard, then (when the guard passes) the notify pass reaching the
registered computed cell, whose `recompute` runs against the already-updated
dependency value. The returned trace holds the computed cell's own subscriber
events. -/
def mapSetStep [DecidableEq α] [DecidableEq β] (s : State α) (c : ComputedState α β)
    (x : α) : State α × ComputedState α β × List (REvent β) :=
  if x ≠ s.value then
    let s' : State α := { s with value := x }
    let rc := c.recompute s'.value
    (s', rc.1, rc.2)
  else
    (s, c, [])

/-- C1. For a Value Cell, assigning a value strictly different from the stored
value stores it and runs one notify pass: every currently-subscribed listener
is invoked exactly once with the new value (the `listeners` Set is
duplicate-free), and then `recompute()` is triggered on every registered
Computed Cell, in that order; assigning a strictly equal value is a no-op
with an empty event trace. -/
theorem c1_value_cell_set [DecidableEq α] (s : State α) (v : α)
    (hnodup : s.listeners.Nodup) :
    (v ≠ s.value →
      (s.setValue v).1.value = v ∧
      (s.setValue v).2 =
        s.listeners.map (fun id => REvent.listenerCall id v)
          ++ s.computedStates.map REvent.recomputeCall ∧
      (∀ id ∈ s.listeners, (s.setValue v).2.count (REvent.listenerCall id v) = 1) ∧
      (∀ cid ∈ s.computedStates, REvent.recomputeCall cid ∈ (s.setValue v).2)) ∧
    (v = s.value → s.setValue v = (s, [])) := by
  constructor
  · intro hne
    have hset : s.setValue v =
        ({ s with value := v },
          s.listeners.map (fun id => REvent.listenerCall id v)
            ++ s.computedStates.map REvent.recomputeCall) := by
      simp [State.setValue, State.notify, hne]
    refine ⟨by rw [hset], by rw [hset], ?_, ?_⟩
    · intro id hid
      rw [hset]
      rw [List.count_append]
      have hinj : Function.Injective (fun id => REvent.listenerCall (α := α) id v) := by
        intro a b hab
        simpa using hab
      have h1 : (s.listeners.map (fun id => REvent.listenerCall id v)).count
          (REvent.listenerCall id v) = s.listeners.count id :=
        List.count_map_of_injective _ _ hinj _
      have h2 : (s.computedStates.map REvent.recomputeCall).count
          (REvent.listenerCall (α := α) id v) = 0 := by
        rw [List.count_eq_zero]
        intro hmem
        rcases List.mem_map.mp hmem with ⟨c, _, hc⟩
        exact REvent.noConfusion hc
      rw [h1, h2, List.count_eq_one_of_mem hnodup hid]
    · intro cid hcid
      rw [hset]
      exact List.mem_append_right _ (List.mem_map_of_mem _ hcid)
  · intro heq
    simp [State.setValue, heq]

/-- Concrete run of `c1_value_cell_set`: a cell holding `0` with listeners
`[1, 2]` and computed cells `[5]`, set to `1`. -/
theorem c1_value_cell_set_witness :
    ((1 : Nat) ≠ (State.mk 0 [1, 2] [5]).value →
      ((State.mk (0 : Nat) [1, 2] [5]).setValue 1).1.value = 1 ∧
      ((State.mk (0 : Nat) [1, 2] [5]).setValue 1).2 =
        [1, 2].map (fun id => REvent.listenerCall id 1)
          ++ [5].map REvent.recomputeCall ∧
      (∀ id ∈ [1, 2],
        ((State.mk (0 : Nat) [1, 2] [5]).setValue 1).2.count (REvent.listenerCall id 1) = 1) ∧
      (∀ cid ∈ [5],
        REvent.recomputeCall cid ∈ ((State.mk (0 : Nat) [1, 2] [5]).setValue 1).2)) ∧
    ((1 : Nat) = (State.mk 0 [1, 2] [5]).value →
      (State.mk (0 : Nat) [1, 2] [5]).setValue 1 = (State.mk 0 [1, 2] [5], [])) :=
  c1_value_cell_set (State.mk (0 : Nat) [1, 2] [5]) 1 (by decide)

/-- C2. `cell.map(fn)` caches `fn` of the cell's current value immediately at
construction; after a strictly-different assignment `x` to the dependency,
the computed cell's cache equals `fn x` once its `recompute` has run, every
subscriber event of that pass already carries `fn x` (the cache is updated
before any of the computed cell's own subscribers fire), subscribers fire
exactly once each when `fn x` differs strictly from the old cache, and no
event is emitted when it is equal. -/
theorem c2_map_computed [DecidableEq α] [DecidableEq β] (s : State α) (fn : α → β)
    (cache : β) (ls : List Nat) (x : α) (hx : x ≠ s.value) :
    (s.map fn).value = fn s.value ∧
    (mapSetStep s ⟨cache, fn, ls⟩ x).1.value = x ∧
    (mapSetStep s ⟨cache, fn, ls⟩ x).2.1.value = fn x ∧
    (∀ e ∈ (mapSetStep s ⟨cache, fn, ls⟩ x).2.2,
      ∃ id ∈ ls, e = REvent.listenerCall id (fn x)) ∧
    (fn x = cache → (mapSetStep s ⟨cache, fn, ls⟩ x).2.2 = []) ∧
    (fn x ≠ cache →
      (mapSetStep s ⟨cache, fn, ls⟩ x).2.2 =
        ls.map (fun id => REvent.listenerCall id (fn x))) := by
  refine ⟨rfl, ?_, ?_, ?_, ?_, ?_⟩
  · simp [mapSetStep, hx]
  · by_cases hc : fn x = cache
    · simp [mapSetStep, hx, ComputedState.recompute, hc]
    · simp [mapSetStep, hx, ComputedState.recompute, hc]
  · intro e he
    by_cases hc : fn x = cache
    · simp [mapSetStep, hx, ComputedState.recompute, hc] at he
    · simp [mapSetStep, hx, ComputedState.recompute, hc] at he
      rcases he with ⟨id, hid, hids⟩
      exact ⟨id, hid, hids.symm⟩
  · intro hc
    simp [mapSetStep, hx, ComputedState.recompute, hc]
  · intro hc
    simp [mapSetStep, hx, ComputedState.recompute, hc]

/-- Concrete run of `c2_map_computed`: `cell = state(1)`, `fn = n ↦ n + 1`,
computed cache `2` with subscriber `[4]`, then `cell.value = 5`. -/
theorem c2_map_computed_witness :
    ((State.mk (1 : Nat) [] []).map (fun n => n + 1)).value = 1 + 1 ∧
    (mapSetStep (State.mk (1 : Nat) [] []) ⟨2, fun n => n + 1, [4]⟩ 5).1.value = 5 ∧
    (mapSetStep (State.mk (1 : Nat) [] []) ⟨2, fun n => n + 1, [4]⟩ 5).2.1.value = 5 + 1 ∧
    (∀ e ∈ (mapSetStep (State.mk (1 : Nat) [] []) ⟨2, fun n => n + 1, [4]⟩ 5).2.2,
      ∃ id ∈ [4], e = REvent.listenerCall id (5 + 1)) ∧
    (5 + 1 = 2 →
      (mapSetStep (State.mk (1 : Nat) [] []) ⟨2, fun n => n + 1, [4]⟩ 5).2.2 = []) ∧
    (5 + 1 ≠ 2 →
      (mapSetStep (State.mk (1 : Nat) [] []) ⟨2, fun n => n + 1, [4]⟩ 5).2.2 =
        [4].map (fun id => REvent.listenerCall id (5 + 1))) :=
  c2_map_computed (State.mk (1 : Nat) [] []) (fun n => n + 1) 2 [4] 5 (by decide)

/-- Count of one listener's invocation events in a notify pass equals that
listener's multiplicity in the `listeners` list. -/
theorem notify_count_listener [DecidableEq α] (s : State α) (id : Nat) :
    s.notify.count (REvent.listenerCall id s.value) = s.listeners.count id := by
  unfold State.notify
  rw [List.count_append]
  have hinj : Function.Injective (fun j => REvent.listenerCall (α := α) j s.value) := by
    intro a b hab
    simpa using hab
  have h1 := List.count_map_of_injective (β := REvent α) s.listeners _ hinj id
  have h2 : (s.computedStates.map REvent.recomputeCall).count
      (REvent.listenerCall (α := α) id s.value) = 0 := by
    rw [List.count_eq_zero]
    intro hmem
    rcases List.mem_map.mp hmem with ⟨c, _, hc⟩
    exact REvent.noConfusion hc
  rw [h1, h2]
  exact Nat.add_zero _

/-- C9. On a Value Cell and on a Computed Cell alike, subscribing the same
listener a second time is a `Set`-add no-op, leaving it registered exactly
once so that one notify pass invokes it exactly once; the unsubscribe closure
is idempotent, a second call (or a call when the listener was never present)
is harmless, and it never removes any other listener. -/
theorem c9_subscribe_set_semantics [DecidableEq α] (s : State α)
    (c : ComputedState γ β) (id a : Nat)
    (hs : s.listeners.Nodup) (hc : c.listeners.Nodup) :
    ((s.subscribe id).subscribe id = s.subscribe id ∧
      (s.subscribe id).listeners.count id = 1 ∧
      ((s.subscribe id).notify).count (REvent.listenerCall id s.value) = 1 ∧
      (s.unsubscribe id).unsubscribe id = s.unsubscribe id ∧
      (id ∉ s.listeners → s.unsubscribe id = s) ∧
      (a ≠ id → (a ∈ (s.unsubscribe id).listeners ↔ a ∈ s.listeners))) ∧
    ((c.subscribe id).subscribe id = c.subscribe id ∧
      (c.subscribe id).listeners.count id = 1 ∧
      (c.unsubscribe id).unsubscribe id = c.unsubscribe id ∧
      (id ∉ c.listeners → c.unsubscribe id = c) ∧
      (a ≠ id → (a ∈ (c.unsubscribe id).listeners ↔ a ∈ c.listeners))) := by
  have subAdd : ∀ l : List Nat, l.Nodup →
      ((if id ∈ (if id ∈ l then l else l ++ [id]) then (if id ∈ l then l else l ++ [id])
        else (if id ∈ l then l else l ++ [id]) ++ [id]) = (if id ∈ l then l else l ++ [id]))
      ∧ (if id ∈ l then l else l ++ [id]).count id = 1 := by
    intro l hl
    by_cases hmem : id ∈ l
    · simp [hmem, List.count_eq_one_of_mem hl hmem]
    · simp [hmem, List.count_eq_zero.mpr hmem]
  have eraseTwice : ∀ l : List Nat, l.Nodup → (l.erase id).erase id = l.erase id := by
    intro l hl
    exact List.erase_of_not_mem hl.not_mem_erase
  refine ⟨⟨?_, ?_, ?_, ?_, ?_, ?_⟩, ⟨?_, ?_, ?_, ?_, ?_⟩⟩
  · simp only [State.subscribe]
    rw [(subAdd s.listeners hs).1]
  · simp only [State.subscribe]
    exact (subAdd s.listeners hs).2
  · have hval : (s.subscribe id).value = s.value := rfl
    rw [← hval, notify_count_listener]
    simp only [State.subscribe]
    exact (subAdd s.listeners hs).2
  · simp only [State.unsubscribe]
    rw [eraseTwice s.listeners hs]
  · intro hnm
    simp [State.unsubscribe, List.erase_of_not_mem hnm]
  · intro hne
    simp only [State.unsubscribe]
    exact List.mem_erase_of_ne hne
  · simp only [ComputedState.subscribe]
    rw [(subAdd c.listeners hc).1]
  · simp only [ComputedState.subscribe]
    exact (subAdd c.listeners hc).2
  · simp only [ComputedState.unsubscribe]
    rw [eraseTwice c.listeners hc]
  · intro hnm
    simp [ComputedState.unsubscribe, List.erase_of_not_mem hnm]
  · intro hne
    simp only [ComputedState.unsubscribe]
    exact List.mem_erase_of_ne hne

/-- Concrete run of `c9_subscribe_set_semantics`: a value cell with listeners
`[1, 2]`, a computed cell with listeners `[3]`, subscribing and unsubscribing
listener `2`, spectator listener `1`. -/
theorem c9_subscribe_set_semantics_witness :
    (((State.mk (0 : Nat) [1, 2] []).subscribe 2).subscribe 2
        = (State.mk (0 : Nat) [1, 2] []).subscribe 2 ∧
      ((State.mk (0 : Nat) [1, 2] []).subscribe 2).listeners.count 2 = 1 ∧
      (((State.mk (0 : Nat) [1, 2] []).subscribe 2).notify).count
        (REvent.listenerCall 2 (State.mk (0 : Nat) [1, 2] []).value) = 1 ∧
      ((State.mk (0 : Nat) [1, 2] []).unsubscribe 2).unsubscribe 2
        = (State.mk (0 : Nat) [1, 2] []).unsubscribe 2 ∧
      (2 ∉ (State.mk (0 : Nat) [1, 2] []).listeners
        → (State.mk (0 : Nat) [1, 2] []).unsubscribe 2 = State.mk (0 : Nat) [1, 2] []) ∧
      (1 ≠ 2 → ((1 ∈ ((State.mk (0 : Nat) [1, 2] []).unsubscribe 2).listeners)
        ↔ 1 ∈ (State.mk (0 : Nat) [1, 2] []).listeners))) ∧
    (((ComputedState.mk (0 : Nat) (fun n : Nat => n) [3]).subscribe 2).subscribe 2
        = (ComputedState.mk (0 : Nat) (fun n : Nat => n) [3]).subscribe 2 ∧
      ((ComputedState.mk (0 : Nat) (fun n : Nat => n) [3]).subscribe 2).listeners.count 2 = 1 ∧
      ((ComputedState.mk (0 : Nat) (fun n : Nat => n) [3]).unsubscribe 2).unsubscribe 2
        = (ComputedState.mk (0 : Nat) (fun n : Nat => n) [3]).unsubscribe 2 ∧
      (2 ∉ (ComputedState.mk (0 : Nat) (fun n : Nat => n) [3]).listeners
        → (ComputedState.mk (0 : Nat) (fun n : Nat => n) [3]).unsubscribe 2
            = ComputedState.mk (0 : Nat) (fun n : Nat => n) [3]) ∧
      (1 ≠ 2 → ((1 ∈ ((ComputedState.mk (0 : Nat) (fun n : Nat => n) [3]).unsubscribe 2).listeners)
        ↔ 1 ∈ (ComputedState.mk (0 : Nat) (fun n : Nat => n) [3]).listeners))) :=
  c9_subscribe_set_semantics (State.mk (0 : Nat) [1, 2] [])
    (ComputedState.mk (0 : Nat) (fun n : Nat => n) [3]) 2 1 (by decide) (by decide)

/-- JavaScript value stored in a cell, as far as `Array.isArray` and `!==`
can see it: either an array object (an identity reference plus the current
element contents) or a primitive (compared by value). -/
inductive JSVal (β : Type) where
  | arr : Nat → List β → JSVal β
  | prim : β → JSVal β
  deriving DecidableEq, Repr

/-- JavaScript strict inequality `!==`: reference inequality on array
objects, value inequality on primitives, and always true across the two. -/
def strictNe [DecidableEq β] : JSVal β → JSVal β → Bool
  | JSVal.arr r _, JSVal.arr q _ => r ≠ q
  | JSVal.prim v, JSVal.prim w => v ≠ w
  | _, _ => true

namespace State

/-- The `value` setter on a cell holding a JavaScript value, with `!==` read
as reference inequality for array objects. -/
def setJS [DecidableEq β] (s : State (JSVal β)) (newValue : JSVal β) :
    State (JSVal β) × List (REvent (JSVal β)) :=
  if strictNe newValue s.value then
    let s' : State (JSVal β) := { s with value := newValue }
    (s', s'.notify)
  else
    (s, [])

/-- `State.push`: `if (Array.isArray(this._value)) { this._value.push(item); this.notify() }`
— the array object is mutated in place (same reference), then the notify pass
runs unconditionally; on a non-array value the whole body is skipped, so the
call returns normally without any effect (it never throws). -/
def push [DecidableEq β] (s : State (JSVal β)) (item : β) :
    Except String (State (JSVal β) × List (REvent (JSVal β))) :=
  match s.value with
  | JSVal.arr r xs =>
      let s' : State (JSVal β) := { s with value := JSVal.arr r (xs ++ [item]) }
      Except.ok (s', s'.notify)
  | JSVal.prim _ => Except.ok (s, [])

/-- `State.filter`: returns a plain filtered array for an array-valued cell
and throws `filter() can only be used on array states` otherwise; it never
notifies. -/
def filter (s : State (JSVal β)) (p : β → Bool) : Except String (List β) :=
  match s.value with
  | JSVal.arr _ xs => Except.ok (xs.filter p)
  | JSVal.prim _ => Except.error "filter() can only be used on array states"

end State

/-- C4 as stated is false: on a non-collection-valued cell, `push` does not
fail with an operation-not-supported error — it returns normally, as a silent
no-op with no notification (here on the cell holding primitive `0` with a
listener and a computed cell registered). -/
theorem c4_push_no_error_counterexample :
    (State.mk (JSVal.prim (0 : Nat)) [1] [2]).push 5
      = Except.ok (State.mk (JSVal.prim (0 : Nat)) [1] [2], []) := rfl

/-- C4 (amended). On a non-collection-valued cell, `filter` fails immediately
with the operation-not-supported error and does not notify, while `push` is a
silent no-op: it throws nothing, leaves the stored value and the cell
unchanged, and triggers no notification. -/
theorem c4_non_collection_ops [DecidableEq β] (s : State (JSVal β)) (b : β)
    (item : β) (p : β → Bool) (h : s.value = JSVal.prim b) :
    s.filter p = Except.error "filter() can only be used on array states" ∧
    s.push item = Except.ok (s, []) := by
  obtain ⟨v, ls, cs⟩ := s
  cases h
  exact ⟨rfl, rfl⟩

/-- Concrete run of `c4_non_collection_ops` on a cell holding primitive `7`. -/
theorem c4_non_collection_ops_witness :
    (State.mk (JSVal.prim (7 : Nat)) [1] [2]).filter (fun _ => true)
        = Except.error "filter() can only be used on array states" ∧
    (State.mk (JSVal.prim (7 : Nat)) [1] [2]).push 5
        = Except.ok (State.mk (JSVal.prim (7 : Nat)) [1] [2], []) :=
  c4_non_collection_ops (State.mk (JSVal.prim (7 : Nat)) [1] [2]) 7 5 (fun _ => true) rfl

/-- C7. On an array-valued cell, `push(item)` appends the item in place
(same object reference) and unconditionally runs the full notify pass —
every listener, then every registered computed cell, in that order — even
though the stored reference is unchanged; by contrast a plain `set` of any
array carrying the same reference fails the `!==` guard and notifies
nothing. -/
theorem c7_push_notifies_unconditionally [DecidableEq β] (s : State (JSVal β))
    (r : Nat) (xs : List β) (item : β) (h : s.value = JSVal.arr r xs) :
    (s.push item = Except.ok
      ({ s with value := JSVal.arr r (xs ++ [item]) },
        s.listeners.map (fun id => REvent.listenerCall id (JSVal.arr r (xs ++ [item])))
          ++ s.computedStates.map REvent.recomputeCall)) ∧
    (∀ ys : List β, s.setJS (JSVal.arr r ys) = (s, [])) := by
  obtain ⟨v, ls, cs⟩ := s
  cases h
  constructor
  · simp [State.push, State.notify]
  · intro ys
    simp [State.setJS, strictNe]

/-- Concrete run of `c7_push_notifies_unconditionally`: a cell holding the
array object `#3` with contents `[10]`, listener `[1]`, computed cell `[2]`;
push `20`, then set the same reference with different contents. -/
theorem c7_push_notifies_unconditionally_witness :
    ((State.mk (JSVal.arr 3 [10]) [1] [2]).push 20 = Except.ok
      ({ State.mk (JSVal.arr 3 [10]) [1] [2] with value := JSVal.arr 3 ([10] ++ [20]) },
        [1].map (fun id => REvent.listenerCall id (JSVal.arr 3 ([10] ++ [20])))
          ++ [2].map REvent.recomputeCall)) ∧
    (∀ ys : List Nat,
      (State.mk (JSVal.arr 3 [10]) [1] [2]).setJS (JSVal.arr 3 ys)
        = (State.mk (JSVal.arr 3 [10]) [1] [2], [])) :=
  c7_push_notifies_unconditionally (State.mk (JSVal.arr 3 [10]) [1] [2]) 3 [10] 20 rfl

/-- A whole reactive system: value cells and computed cells indexed by ids.
Each value cell carries its `listeners` and `computedStates` sets; each
computed cell carries its cache, its compute closure (reading the current
value-cell environment) and its own `listeners`. `ComputedState` has no
`computedStates` field in the source, which is what this model reflects. -/
structure RSys (α : Type) where
  cellValue : Nat → α
  cellListeners : Nat → List Nat
  cellComputedStates : Nat → List Nat
  compValue : Nat → α
  compFn : Nat → (Nat → α) → α
  compListeners : Nat → List Nat

namespace RSys

/-- `ComputedState.recompute` inside the system: recompute from the current
cell environment; on strict change update the cache and fire this computed
cell's own subscribers — nothing else. -/
def recomputeComp [DecidableEq α] (sys : RSys α) (cid : Nat) : RSys α × List (REvent α) :=
  let newValue := sys.compFn cid sys.cellValue
  if newValue ≠ sys.compValue cid then
    ({ sys with compValue := Function.update sys.compValue cid newValue },
      (sys.compListeners cid).map (fun id => REvent.listenerCall id newValue))
  else
    (sys, [])

/-- `this.computedStates.forEach(computed => computed.recompute())`: trigger
`recompute()` on each listed computed cell in order, tracing each trigger. -/
def notifyComputeds [DecidableEq α] (sys : RSys α) : List Nat → RSys α × List (REvent α)
  | [] => (sys, [])
  | cid :: rest =>
      let p := sys.recomputeComp cid
      let q := p.1.notifyComputeds rest
      (q.1, REvent.recomputeCall cid :: p.2 ++ q.2)

/-- The `value` setter of one value cell inside the system: on strict change,
store, fire the cell's listeners, then trigger its registered computeds. -/
def setCell [DecidableEq α] (sys : RSys α) (i : Nat) (v : α) : RSys α × List (REvent α) :=
  if v ≠ sys.cellValue i then
    let sys1 : RSys α := { sys with cellValue := Function.update sys.cellValue i v }
    let q := sys1.notifyComputeds (sys1.cellComputedStates i)
    (q.1, (sys1.cellListeners i).map (fun id => REvent.listenerCall id v) ++ q.2)
  else
    (sys, [])

/-- A sequence of value-cell mutations, with the concatenated event trace. -/
def runSets [DecidableEq α] (sys : RSys α) : List (Nat × α) → RSys α × List (REvent α)
  | [] => (sys, [])
  | m :: rest =>
      let p := sys.setCell m.1 m.2
      let q := p.1.runSets rest
      (q.1, p.2 ++ q.2)

end RSys

theorem recomputeComp_cellComputedStates [DecidableEq α] (sys : RSys α) (cid : Nat) :
    (sys.recomputeComp cid).1.cellComputedStates = sys.cellComputedStates := by
  by_cases h : sys.compFn cid sys.cellValue ≠ sys.compValue cid
  · simp [RSys.recomputeComp, h]
  · simp [RSys.recomputeComp, h]

theorem notifyComputeds_cellComputedStates [DecidableEq α] (sys : RSys α) (cids : List Nat) :
    (sys.notifyComputeds cids).1.cellComputedStates = sys.cellComputedStates := by
  induction cids generalizing sys with
  | nil => rfl
  | cons c rest ih =>
      show ((sys.recomputeComp c).1.notifyComputeds rest).1.cellComputedStates = _
      rw [ih, recomputeComp_cellComputedStates]

theorem setCell_cellComputedStates [DecidableEq α] (sys : RSys α) (i : Nat) (v : α) :
    (sys.setCell i v).1.cellComputedStates = sys.cellComputedStates := by
  by_cases h : v ≠ sys.cellValue i
  · simp only [RSys.setCell, if_pos h]
    rw [notifyComputeds_cellComputedStates]
  · simp [RSys.setCell, h]

theorem recomputeComp_events_listener [DecidableEq α] (sys : RSys α) (cid : Nat) :
    ∀ e ∈ (sys.recomputeComp cid).2,
      ∃ id ∈ sys.compListeners cid, ∃ v, e = REvent.listenerCall id v := by
  intro e he
  by_cases h : sys.compFn cid sys.cellValue ≠ sys.compValue cid
  · simp only [RSys.recomputeComp, if_pos h] at he
    rcases List.mem_map.mp he with ⟨id, hid, hide⟩
    exact ⟨id, hid, _, hide.symm⟩
  · simp [RSys.recomputeComp, h] at he

theorem notifyComputeds_recomputeCall [DecidableEq α] (sys : RSys α) (cids : List Nat)
    (cid : Nat) (h : REvent.recomputeCall cid ∈ (sys.notifyComputeds cids).2) :
    cid ∈ cids := by
  induction cids generalizing sys with
  | nil => exact absurd h (List.not_mem_nil _)
  | cons c rest ih =>
      have h' : REvent.recomputeCall cid = REvent.recomputeCall (α := α) c ∨
          REvent.recomputeCall cid ∈ (sys.recomputeComp c).2 ++
            ((sys.recomputeComp c).1.notifyComputeds rest).2 := by
        simpa [RSys.notifyComputeds] using h
      rcases h' with h' | h'
      · cases h'
        exact List.mem_cons_self _ _
      · rcases List.mem_append.mp h' with h' | h'
        · rcases recomputeComp_events_listener sys c _ h' with ⟨_, _, _, habs⟩
          exact REvent.noConfusion habs
        · exact List.mem_cons_of_mem _ (ih _ h')

theorem setCell_recomputeCall [DecidableEq α] (sys : RSys α) (i : Nat) (v : α)
    (cid : Nat) (h : REvent.recomputeCall cid ∈ (sys.setCell i v).2) :
    cid ∈ sys.cellComputedStates i := by
  by_cases hv : v ≠ sys.cellValue i
  · simp only [RSys.setCell, if_pos hv] at h
    rcases List.mem_append.mp h with h | h
    · rcases List.mem_map.mp h with ⟨_, _, habs⟩
      exact REvent.noConfusion habs
    · exact notifyComputeds_recomputeCall _ _ _ h
  · simp [RSys.setCell, hv] at h

/-- C8. A computed cell's `recompute` reaches only its own direct
subscribers: every event it emits is a listener invocation of one of its
registered listeners, never a `recompute` trigger on another computed cell.
Consequently, over any sequence of value-cell mutations, every `recompute`
trigger in the whole trace stems from the `computedStates` registration of
the value cell that was mutated — only value cells act as notification
roots, with no transitive computed-on-computed propagation. -/
theorem c8_single_hop_propagation [DecidableEq α] (sys : RSys α)
    (ms : List (Nat × α)) (cid : Nat) :
    (∀ c : Nat, ∀ e ∈ (sys.recomputeComp c).2,
      ∃ id ∈ sys.compListeners c, ∃ v, e = REvent.listenerCall id v) ∧
    (REvent.recomputeCall cid ∈ (sys.runSets ms).2 →
      ∃ m ∈ ms, cid ∈ sys.cellComputedStates m.1) := by
  refine ⟨fun c => recomputeComp_events_listener sys c, ?_⟩
  induction ms generalizing sys with
  | nil =>
      intro h
      exact absurd h (List.not_mem_nil _)
  | cons m rest ih =>
      intro h
      have h' : REvent.recomputeCall cid ∈ (sys.setCell m.1 m.2).2 ++
          ((sys.setCell m.1 m.2).1.runSets rest).2 := by
        simpa [RSys.runSets] using h
      rcases List.mem_append.mp h' with h' | h'
      · exact ⟨m, List.mem_cons_self _ _, setCell_recomputeCall _ _ _ _ h'⟩
      · rcases ih _ h' with ⟨m', hm', hcid⟩
        rw [setCell_cellComputedStates] at hcid
        exact ⟨m', List.mem_cons_of_mem _ hm', hcid⟩

/-- A concrete system for exercising `c8_single_hop_propagation`: one value
cell `0` with computed cell `7` registered, whose subscriber is `3`. -/
def c8demoSys : RSys Nat where
  cellValue := fun _ => 0
  cellListeners := fun _ => []
  cellComputedStates := fun _ => [7]
  compValue := fun _ => 0
  compFn := fun _ env => env 0 + 1
  compListeners := fun _ => [3]

/-- Concrete run of `c8_single_hop_propagation` on `c8demoSys` with the
mutation sequence `[(0, 5)]`. -/
theorem c8_single_hop_propagation_witness :
    (∃ id ∈ c8demoSys.compListeners 7, ∃ v,
      REvent.listenerCall 3 1 = REvent.listenerCall id v) ∧
    (∃ m ∈ [((0 : Nat), (5 : Nat))], 7 ∈ c8demoSys.cellComputedStates m.1) :=
  ⟨(c8_single_hop_propagation c8demoSys [(0, 5)] 7).1 7
      (REvent.listenerCall 3 1) (by decide),
    (c8_single_hop_propagation c8demoSys [(0, 5)] 7).2 (by decide)⟩

/-!
Context stack of `simplest.ts`. Elements are abstract (`E`); the stack is a
list whose head is the bottom (`document.body`) and whose last entry is the
top, matching `contextStack.push` / `contextStack.pop` on a JS array.
-/

/-- `contextStack.push(element)`. -/
def pushContext (st : List E) (e : E) : List E :=
  st ++ [e]

/-- `popContext`: `if (contextStack.length > 1) { contextStack.pop() }`. -/
def popContext (st : List E) : List E :=
  if st.length > 1 then st.dropLast else st

/-- `getCurrentContext`: `contextStack[contextStack.length - 1]` — `none`
models the JS `undefined` read past the end of an empty array. -/
def getCurrentContext (st : List E) : Option E :=
  st.getLast?

/-- One observable stack operation issued against the module-level stack. -/
inductive CtxOp (E : Type) where
  | push : E → CtxOp E
  | pop : CtxOp E

/-- Run a sequence of pushes and pops against a stack. -/
def applyCtxOps (st : List E) : List (CtxOp E) → List E
  | [] => st
  | CtxOp.push e :: rest => applyCtxOps (pushContext st e) rest
  | CtxOp.pop :: rest => applyCtxOps (popContext st) rest

theorem applyCtxOps_head (body : E) (ops : List (CtxOp E)) :
    ∀ st : List E, st.head? = some body → (applyCtxOps st ops).head? = some body := by
  induction ops with
  | nil => exact fun st h => h
  | cons op rest ih =>
      intro st h
      cases op with
      | push e =>
          apply ih
          unfold pushContext
          cases st with
          | nil => exact absurd h (by simp)
          | cons a t => simpa using h
      | pop =>
          apply ih
          unfold popContext
          split
          · rename_i hlen
            cases st with
            | nil => exact absurd h (by simp)
            | cons a t =>
                cases t with
                | nil => simp at hlen
                | cons b u => simpa using h
          · exact h

/-- C10. The context stack never underflows: starting from the initial stack
`[document.body]`, after any sequence of `pushContext`/`popContext` calls
(including unbalanced extra pops) the stack is non-empty, its bottom element
is still `document.body`, and `getCurrentContext()` returns a defined
element. -/
theorem c10_context_stack_never_underflows (body : E) (ops : List (CtxOp E)) :
    applyCtxOps [body] ops ≠ [] ∧
    (applyCtxOps [body] ops).head? = some body ∧
    ∃ e, getCurrentContext (applyCtxOps [body] ops) = some e := by
  have hhead : (applyCtxOps [body] ops).head? = some body :=
    applyCtxOps_head body ops [body] rfl
  have hne : applyCtxOps [body] ops ≠ [] := by
    intro hnil
    rw [hnil] at hhead
    exact Option.noConfusion hhead
  refine ⟨hne, hhead, ?_⟩
  unfold getCurrentContext
  rcases List.getLast?_isSome.mpr hne with h
  rcases Option.isSome_iff_exists.mp h with ⟨e, he⟩
  exact ⟨e, he⟩

/-!
`div` from `simplest.ts` (same stack discipline as `SimplestEngine.div` in
`simplest-v2.js`): when there are children, push the new element, evaluate
the children in order, then pop. There is no try/finally around the child
loop: a child whose evaluation throws propagates out before `popContext`
runs. A child's evaluation outcome is modelled as `Except String Unit`.
-/

/-- `children.forEach(...)`: evaluate children left to right; the first
thrown error aborts the loop and propagates. -/
def runChildren : List (Except String Unit) → Except String Unit
  | [] => Except.ok ()
  | Except.ok () :: rest => runChildren rest
  | Except.error msg :: _ => Except.error msg

/-- `div(props, ...children)` restricted to its context-stack behaviour:
returns the call outcome together with the module stack after the call. -/
def div (st : List E) (element : E) (children : List (Except String Unit)) :
    Except String E × List E :=
  if children.length > 0 then
    let st1 := pushContext st element
    match runChildren children with
    | Except.ok () => (Except.ok element, popContext st1)
    | Except.error msg => (Except.error msg, st1)
  else
    (Except.ok element, st)

/-- C3 fails on the code: with the initial stack `[document.body]`, a `div`
whose single child's evaluation throws leaves the stack at depth 2 — the
pushed element is never popped, so the depth after the call differs from the
depth before. (When no child throws, the pop does restore the depth.) -/
theorem c3_div_skips_pop_on_error :
    div ([0] : List Nat) 1 [Except.error "child threw"]
        = (Except.error "child threw", [0, 1]) ∧
    (div ([0] : List Nat) 1 [Except.error "child threw"]).2.length = 2 ∧
    ([0] : List Nat).length = 1 ∧
    (div ([0] : List Nat) 1 [Except.ok ()]).2 = [0] := by
  refine ⟨rfl, rfl, rfl, rfl⟩

/-!
`ConditionalElement` from `state.ts`. The DOM parent (`document.body`) is a
list of nodes; the binding owns a comment placeholder appended at
construction, plus at most one mounted element. `elementFn()` returns a fresh
element each call, identified by a natural number.
-/

/-- A node in the placeholder's parent: the binding's comment placeholder or
an element node identified by id. -/
inductive DNode where
  | placeholder : DNode
  | elem : Nat → DNode
  deriving DecidableEq, Repr

/-- `parent.insertBefore(newNode, refNode)`: insert immediately before the
first occurrence of the reference node. -/
def insertBefore (children : List DNode) (newNode refNode : DNode) : List DNode :=
  match children with
  | [] => []
  | c :: rest =>
      if c = refNode then newNode :: c :: rest
      else c :: insertBefore rest newNode refNode

/-- `node.remove()`: remove the first occurrence of the node from its
parent's children. -/
def removeNode (children : List DNode) (n : DNode) : List DNode :=
  match children with
  | [] => []
  | c :: rest => if c = n then rest else c :: removeNode rest n

/-- The mutable state of one `ConditionalElement`: the parent's child list
(holding the placeholder) and the `currentElement` reference. -/
structure CondBinding where
  children : List DNode
  currentElement : Option Nat
  deriving DecidableEq, Repr

/-- `ConditionalElement.update`: mount a freshly rendered element immediately
before the placeholder when the condition holds and nothing is mounted;
remove the mounted element and clear the reference when the condition fails
and something is mounted; otherwise do nothing. -/
def CondBinding.update (b : CondBinding) (shouldShow : Bool) (freshId : Nat) : CondBinding :=
  match shouldShow, b.currentElement with
  | true, none =>
      { children := insertBefore b.children (DNode.elem freshId) DNode.placeholder,
        currentElement := some freshId }
  | false, some id =>
      { children := removeNode b.children (DNode.elem id), currentElement := none }
  | _, _ => b

/-- States of a binding reachable from construction: the constructor appends
the placeholder (children become `pre ++ placeholder :: post` with nothing
mounted) and immediately runs `update` once; every dependency notification
runs `update` again. Each mount uses a fresh element not occurring in `pre`. -/
inductive CondReach (pre post : List DNode) : CondBinding → Prop where
  | init (showInit : Bool) (freshId : Nat) (hfresh : DNode.elem freshId ∉ pre) :
      CondReach pre post
        (CondBinding.update ⟨pre ++ DNode.placeholder :: post, none⟩ showInit freshId)
  | step (b : CondBinding) (showNext : Bool) (freshId : Nat)
      (hb : CondReach pre post b) (hfresh : DNode.elem freshId ∉ pre) :
      CondReach pre post (b.update showNext freshId)

theorem insertBefore_at_marker (pre rest : List DNode) (n ref : DNode)
    (h : ref ∉ pre) : insertBefore (pre ++ ref :: rest) n ref = pre ++ n :: ref :: rest := by
  induction pre with
  | nil => simp [insertBefore]
  | cons a t ih =>
      have hne : a ≠ ref := fun ha => h (ha ▸ List.mem_cons_self a t)
      have ht : ref ∉ t := fun hm => h (List.mem_cons_of_mem a hm)
      simp [insertBefore, hne, ih ht]

theorem removeNode_at_head (pre rest : List DNode) (n : DNode)
    (h : n ∉ pre) : removeNode (pre ++ n :: rest) n = pre ++ rest := by
  induction pre with
  | nil => simp [removeNode]
  | cons a t ih =>
      have hne : a ≠ n := fun ha => h (ha ▸ List.mem_cons_self a t)
      have ht : n ∉ t := fun hm => h (List.mem_cons_of_mem a hm)
      simp [removeNode, hne, ih ht]

/-- Shape invariant of a conditional binding relative to the fixed
surroundings `pre`/`post` of its placeholder: either nothing is mounted and
the parent holds exactly the placeholder between them, or exactly one
element is mounted, sitting immediately before the placeholder. -/
def CondShape (pre post : List DNode) (b : CondBinding) : Prop :=
  (b.currentElement = none ∧ b.children = pre ++ DNode.placeholder :: post) ∨
  (∃ id, b.currentElement = some id ∧
    b.children = pre ++ DNode.elem id :: DNode.placeholder :: post ∧
    DNode.elem id ∉ pre)

theorem condShape_update (pre post : List DNode) (hpre : DNode.placeholder ∉ pre)
    (b : CondBinding) (hb : CondShape pre post b) (shouldShow : Bool) (freshId : Nat)
    (hfresh : DNode.elem freshId ∉ pre) :
    CondShape pre post (b.update shouldShow freshId) := by
  rcases hb with ⟨hnone, hch⟩ | ⟨id, hsome, hch, hid⟩
  · cases shouldShow with
    | true =>
        right
        refine ⟨freshId, ?_, ?_, hfresh⟩
        · simp [CondBinding.update, hnone]
        · simp [CondBinding.update, hnone, hch, insertBefore_at_marker _ _ _ _ hpre]
    | false =>
        left
        exact ⟨by simp [CondBinding.update, hnone], by simp [CondBinding.update, hnone, hch]⟩
  · cases shouldShow with
    | true =>
        right
        refine ⟨id, ?_, ?_, hid⟩
        · simp [CondBinding.update, hsome]
        · simp [CondBinding.update, hsome, hch]
    | false =>
        left
        refine ⟨by simp [CondBinding.update, hsome], ?_⟩
        simp only [CondBinding.update, hsome]
        rw [hch, removeNode_at_head _ _ _ hid]

theorem condReach_shape (pre post : List DNode) (hpre : DNode.placeholder ∉ pre)
    (b : CondBinding) (hb : CondReach pre post b) : CondShape pre post b := by
  induction hb with
  | init showInit freshId hfresh =>
      exact condShape_update pre post hpre ⟨pre ++ DNode.placeholder :: post, none⟩
        (Or.inl ⟨rfl, rfl⟩) showInit freshId hfresh
  | step b showNext freshId hb hfresh ih =>
      exact condShape_update pre post hpre b ih showNext freshId hfresh

/-- C5. In every reachable state of a conditional binding (the placeholder's
fixed surroundings being `pre`/`post`): at most one concrete element is
mounted, and the parent is exactly `pre ++ [mounted?] ++ placeholder :: post`
— so the placeholder never moves; a false→true update mounts exactly one
fresh node immediately before the placeholder; a true→false update removes
exactly the mounted node and clears the reference; an update that does not
change the condition's truth value leaves both the DOM and the binding
untouched. -/
theorem c5_conditional_binding (pre post : List DNode)
    (hpre : DNode.placeholder ∉ pre) (b : CondBinding)
    (hb : CondReach pre post b) (freshId : Nat) (_hfresh : DNode.elem freshId ∉ pre) :
    (b.children = pre ++ DNode.placeholder :: post ∨
      ∃ id, b.currentElement = some id ∧
        b.children = pre ++ DNode.elem id :: DNode.placeholder :: post) ∧
    (b.currentElement = none →
      (b.update true freshId).children = pre ++ DNode.elem freshId :: DNode.placeholder :: post ∧
      (b.update true freshId).currentElement = some freshId) ∧
    (∀ id, b.currentElement = some id →
      (b.update false freshId).children = pre ++ DNode.placeholder :: post ∧
      (b.update false freshId).currentElement = none) ∧
    (b.currentElement = none → b.update false freshId = b) ∧
    (∀ id, b.currentElement = some id → b.update true freshId = b) := by
  have hshape := condReach_shape pre post hpre b hb
  refine ⟨?_, ?_, ?_, ?_, ?_⟩
  · rcases hshape with ⟨_, hch⟩ | ⟨id, hsome, hch, _⟩
    · exact Or.inl hch
    · exact Or.inr ⟨id, hsome, hch⟩
  · intro hnone
    rcases hshape with ⟨_, hch⟩ | ⟨id, hsome, _, _⟩
    · constructor
      · simp [CondBinding.update, hnone, hch, insertBefore_at_marker _ _ _ _ hpre]
      · simp [CondBinding.update, hnone]
    · rw [hnone] at hsome
      exact Option.noConfusion hsome
  · intro id hsome
    rcases hshape with ⟨hnone, _⟩ | ⟨id', hsome', hch, hid'⟩
    · rw [hsome] at hnone
      exact Option.noConfusion hnone
    · have hid : id' = id := by
        rw [hsome] at hsome'
        exact (Option.some.inj hsome').symm
      subst hid
      constructor
      · simp only [CondBinding.update, hsome]
        rw [hch, removeNode_at_head _ _ _ hid']
      · simp [CondBinding.update, hsome]
  · intro hnone
    simp [CondBinding.update, hnone]
  · intro id hsome
    simp [CondBinding.update, hsome]

/-- Concrete run of `c5_conditional_binding`: parent `[elem 0]` before the
placeholder and `[elem 9]` after it, binding constructed with an initially
true condition mounting element `1`, next fresh element `2`. -/
theorem c5_conditional_binding_witness :
    ((CondBinding.update ⟨[DNode.elem 0] ++ DNode.placeholder :: [DNode.elem 9], none⟩
        true 1).children
        = [DNode.elem 0] ++ DNode.placeholder :: [DNode.elem 9] ∨
      ∃ id, (CondBinding.update ⟨[DNode.elem 0] ++ DNode.placeholder :: [DNode.elem 9], none⟩
          true 1).currentElement = some id ∧
        (CondBinding.update ⟨[DNode.elem 0] ++ DNode.placeholder :: [DNode.elem 9], none⟩
          true 1).children
          = [DNode.elem 0] ++ DNode.elem id :: DNode.placeholder :: [DNode.elem 9]) ∧
    ((CondBinding.update ⟨[DNode.elem 0] ++ DNode.placeholder :: [DNode.elem 9], none⟩
        true 1).currentElement = none →
      ((CondBinding.update ⟨[DNode.elem 0] ++ DNode.placeholder :: [DNode.elem 9], none⟩
          true 1).update true 2).children
        = [DNode.elem 0] ++ DNode.elem 2 :: DNode.placeholder :: [DNode.elem 9] ∧
      ((CondBinding.update ⟨[DNode.elem 0] ++ DNode.placeholder :: [DNode.elem 9], none⟩
          true 1).update true 2).currentElement = some 2) ∧
    (∀ id, (CondBinding.update ⟨[DNode.elem 0] ++ DNode.placeholder :: [DNode.elem 9], none⟩
        true 1).currentElement = some id →
      ((CondBinding.update ⟨[DNode.elem 0] ++ DNode.placeholder :: [DNode.elem 9], none⟩
          true 1).update false 2).children
        = [DNode.elem 0] ++ DNode.placeholder :: [DNode.elem 9] ∧
      ((CondBinding.update ⟨[DNode.elem 0] ++ DNode.placeholder :: [DNode.elem 9], none⟩
          true 1).update false 2).currentElement = none) ∧
    ((CondBinding.update ⟨[DNode.elem 0] ++ DNode.placeholder :: [DNode.elem 9], none⟩
        true 1).currentElement = none →
      (CondBinding.update ⟨[DNode.elem 0] ++ DNode.placeholder :: [DNode.elem 9], none⟩
          true 1).update false 2
        = CondBinding.update ⟨[DNode.elem 0] ++ DNode.placeholder :: [DNode.elem 9], none⟩
            true 1) ∧
    (∀ id, (CondBinding.update ⟨[DNode.elem 0] ++ DNode.placeholder :: [DNode.elem 9], none⟩
        true 1).currentElement = some id →
      (CondBinding.update ⟨[DNode.elem 0] ++ DNode.placeholder :: [DNode.elem 9], none⟩
          true 1).update true 2
        = CondBinding.update ⟨[DNode.elem 0] ++ DNode.placeholder :: [DNode.elem 9], none⟩
            true 1) :=
  c5_conditional_binding [DNode.elem 0] [DNode.elem 9] (by decide)
    (CondBinding.update ⟨[DNode.elem 0] ++ DNode.placeholder :: [DNode.elem 9], none⟩ true 1)
    (CondReach.init true 1 (by decide)) 2 (by decide)

/-!
`IteratedElements` from `state.ts`. Its dedicated container is a child list;
`render()` removes every tracked element from it, then renders each current
item in order, appending each result and tracking it.
-/

/-- `el.remove()` for a container child: drop the first occurrence. -/
def removeChild [DecidableEq β] : List β → β → List β
  | [], _ => []
  | c :: rest, n => if c = n then rest else c :: removeChild rest n

/-- Mutable state of one `IteratedElements`: tracked `elements` and the
container's child list. -/
structure IteratedElements (β : Type) where
  elements : List β
  container : List β
  deriving Repr

/-- The render loop body: `currentItems.forEach((item, index) => { const
element = this.renderFn(item, index); this.container.appendChild(element);
this.elements.push(element) })`. -/
def appendRendered (it : IteratedElements β) (renderFn : α → Nat → β) (index : Nat) :
    List α → IteratedElements β
  | [] => it
  | item :: rest =>
      let element := renderFn item index
      appendRendered ⟨it.elements ++ [element], it.container ++ [element]⟩
        renderFn (index + 1) rest

/-- `IteratedElements.render`: remove every tracked element from the
container, reset the tracking list, then render the current items in order. -/
def IteratedElements.render [DecidableEq β] (it : IteratedElements β)
    (currentItems : List α) (renderFn : α → Nat → β) : IteratedElements β :=
  appendRendered ⟨[], it.elements.foldl removeChild it.container⟩ renderFn 0 currentItems

/-- Reference sequence of nodes produced by rendering `items` with indices
starting at `index`. -/
def renderedFrom (renderFn : α → Nat → β) (index : Nat) : List α → List β
  | [] => []
  | item :: rest => renderFn item index :: renderedFrom renderFn (index + 1) rest

theorem foldl_removeChild_self [DecidableEq β] :
    ∀ l : List β, l.foldl removeChild l = [] := by
  intro l
  induction l with
  | nil => rfl
  | cons a t ih =>
      show List.foldl removeChild (removeChild (a :: t) a) t = []
      rw [show removeChild (a :: t) a = t by simp [removeChild]]
      exact ih

theorem appendRendered_spec (renderFn : α → Nat → β) :
    ∀ (items : List α) (it : IteratedElements β) (index : Nat),
      (appendRendered it renderFn index items).elements
          = it.elements ++ renderedFrom renderFn index items ∧
      (appendRendered it renderFn index items).container
          = it.container ++ renderedFrom renderFn index items := by
  intro items
  induction items with
  | nil => exact fun it index => ⟨by simp [appendRendered, renderedFrom],
      by simp [appendRendered, renderedFrom]⟩
  | cons item rest ih =>
      intro it index
      have h := ih ⟨it.elements ++ [renderFn item index],
        it.container ++ [renderFn item index]⟩ (index + 1)
      refine ⟨?_, ?_⟩
      · show (appendRendered _ renderFn (index + 1) rest).elements = _
        rw [h.1]
        simp [renderedFrom]
      · show (appendRendered _ renderFn (index + 1) rest).container = _
        rw [h.2]
        simp [renderedFrom]

theorem renderedFrom_length (renderFn : α → Nat → β) :
    ∀ (items : List α) (index : Nat),
      (renderedFrom renderFn index items).length = items.length := by
  intro items
  induction items with
  | nil => intro index; rfl
  | cons item rest ih =>
      intro index
      show (renderedFrom renderFn (index + 1) rest).length + 1 = rest.length + 1
      rw [ih]

theorem renderedFrom_get? (renderFn : α → Nat → β) :
    ∀ (items : List α) (index j : Nat) (a : α), items.get? j = some a →
      (renderedFrom renderFn index items).get? j = some (renderFn a (index + j)) := by
  intro items
  induction items with
  | nil =>
      intro index j a h
      simp at h
  | cons item rest ih =>
      intro index j a h
      cases j with
      | zero =>
          simp at h
          subst h
          simp [renderedFrom]
      | succ j =>
          have h' : rest.get? j = some a := by simpa using h
          have := ih (index + 1) j a h'
          show (renderedFrom renderFn (index + 1) rest).get? j = _
          rw [this]
          have harith : index + 1 + j = index + (j + 1) := by omega
          rw [harith]

/-- C6. For a List Binding whose container holds exactly the tracked nodes,
any render pass first removes every previously mounted node from the
container (the cleared container is empty), and afterwards the tracked list
has exactly `source.length` entries whose `i`-th entry is `render(source[i],
i)` — freshly produced this pass — and the container again holds exactly the
tracked nodes, in source order. -/
theorem c6_list_binding_render [DecidableEq β] (it : IteratedElements β)
    (items : List α) (renderFn : α → Nat → β) (hinv : it.container = it.elements) :
    it.elements.foldl removeChild it.container = [] ∧
    (it.render items renderFn).elements.length = items.length ∧
    (∀ j a, items.get? j = some a →
      (it.render items renderFn).elements.get? j = some (renderFn a j)) ∧
    (it.render items renderFn).container = (it.render items renderFn).elements := by
  have hcleared : it.elements.foldl removeChild it.container = [] := by
    rw [hinv]
    exact foldl_removeChild_self it.elements
  have hspec := appendRendered_spec renderFn items
    ⟨[], it.elements.foldl removeChild it.container⟩ 0
  have helems : (it.render items renderFn).elements = renderedFrom renderFn 0 items := by
    show (appendRendered _ renderFn 0 items).elements = _
    rw [hspec.1]
    simp
  have hcont : (it.render items renderFn).container = renderedFrom renderFn 0 items := by
    show (appendRendered _ renderFn 0 items).container = _
    rw [hspec.2, hcleared]
    simp
  refine ⟨hcleared, ?_, ?_, ?_⟩
  · rw [helems, renderedFrom_length]
  · intro j a h
    rw [helems]
    have := renderedFrom_get? renderFn items 0 j a h
    simpa using this
  · rw [helems, hcont]

/-- Concrete run of `c6_list_binding_render`: a binding tracking `[5, 6]`
with a matching container, re-rendered over source `[10, 20]` with
`render(item, index) = item + index`. -/
theorem c6_list_binding_render_witness :
    ([5, 6] : List Nat).foldl removeChild [5, 6] = [] ∧
    ((IteratedElements.mk ([5, 6] : List Nat) [5, 6]).render [10, 20]
      (fun a i => a + i)).elements.length = ([10, 20] : List Nat).length ∧
    (∀ j a, ([10, 20] : List Nat).get? j = some a →
      ((IteratedElements.mk ([5, 6] : List Nat) [5, 6]).render [10, 20]
        (fun a i => a + i)).elements.get? j = some (a + j)) ∧
    ((IteratedElements.mk ([5, 6] : List Nat) [5, 6]).render [10, 20]
        (fun a i => a + i)).container
      = ((IteratedElements.mk ([5, 6] : List Nat) [5, 6]).render [10, 20]
        (fun a i => a + i)).elements :=
  c6_list_binding_render (IteratedElements.mk ([5, 6] : List Nat) [5, 6])
    [10, 20] (fun a i => a + i) rfl
